import Mathlib

/-!
Verification of the data-lineage-tracker extraction pipeline
(`src/lineage_extractor.py`) against its specification.

The development shallowly embeds the Python source:

* `parseSqlTables` embeds `SSISLineageExtractor._parse_sql_tables`,
  including a faithful model of Python `re.findall` for the five regular
  expressions used there (left-to-right non-overlapping scan, greedy
  `\w+(?:\.\w+)?` capture after each keyword and `\s+`).
* `XNode`/`findallTagAttr` embed the `xml.etree` element tree and the
  `.//tag[@attr="v"]` queries used by the extractor.
* `SSISLineageExtractor` state (`assets`/`transformations` dicts) is
  embedded as insertion-ordered association lists with Python-dict
  update semantics (`dictInsert`).
* `createLineageGraph`/`getLineageForAsset` embed the Neo4j graph
  construction and the bounded variable-length Cypher path query.
-/

/-! ## Character classes (Python `\s` and `\w`, ASCII range) -/

/-- Python regex `\s` (ASCII): space, tab, newline, carriage return,
vertical tab, form feed. -/
def isSpc (c : Char) : Bool :=
  c = ' ' || c = '\t' || c = '\n' || c = '\r' || c = '\x0b' || c = '\x0c'

/-- Python regex `\w` (ASCII): letters, digits, underscore. -/
def isWordChar (c : Char) : Bool :=
  c.isAlphanum || c = '_'

/-! ## Regex matching primitives

Each pattern used by `_parse_sql_tables` has the shape
`KW1\s+KW2\s+...\s+(\w+(?:\.\w+)?)` for a nonempty list of literal
keywords, so a matcher is: drop each keyword literal followed by at
least one whitespace character (greedily consumed), then capture a
greedy word run optionally extended by a dot and a second word run. -/

/-- Drop an exact literal prefix, or fail. -/
def dropPrefixL : List Char → List Char → Option (List Char)
  | [], s => some s
  | _ :: _, [] => none
  | a :: as, c :: t => if c = a then dropPrefixL as t else none

/-- Consume one or more whitespace characters (greedy `\s+`). -/
def dropSpaces1 : List Char → Option (List Char)
  | [] => none
  | c :: t => if isSpc c then some (t.dropWhile isSpc) else none

/-- Consume the keyword part of a pattern: each keyword literal followed
by `\s+`. -/
def matchKws : List (List Char) → List Char → Option (List Char)
  | [], s => some s
  | kw :: kws, s =>
    (dropPrefixL kw s).bind fun s1 => (dropSpaces1 s1).bind (matchKws kws)

/-- Capture `\w+(?:\.\w+)?` greedily; returns (capture, rest). -/
def matchIdent (s : List Char) : Option (List Char × List Char) :=
  let run1 := s.takeWhile isWordChar
  let rest1 := s.dropWhile isWordChar
  if run1 = [] then none
  else
    match rest1 with
    | '.' :: r2 =>
      let run2 := r2.takeWhile isWordChar
      if run2 = [] then some (run1, rest1)
      else some (run1 ++ '.' :: run2, r2.dropWhile isWordChar)
    | _ => some (run1, rest1)

/-- Attempt a whole-pattern match at the head of `s`. -/
def matchPat (kws : List (List Char)) (s : List Char) :
    Option (List Char × List Char) :=
  (matchKws kws s).bind matchIdent

/-- `re.findall` scan with explicit fuel: at each position try the
pattern; on success emit the capture and resume after the match, else
advance one character. -/
def scanF (kws : List (List Char)) : Nat → List Char → List (List Char)
  | 0, _ => []
  | _ + 1, [] => []
  | fuel + 1, c :: t =>
    match matchPat kws (c :: t) with
    | some (cap, rest) => cap :: scanF kws fuel rest
    | none => scanF kws fuel t

/-- `re.findall pattern s` (fuel instantiated with the string length,
which the progress lemmas below show is enough). -/
def findall (kws : List (List Char)) (s : List Char) : List (List Char) :=
  scanF kws s.length s

/-! ## The five patterns of `_parse_sql_tables` -/

def fromPattern : List (List Char) := ["FROM".data]
def joinPattern : List (List Char) := ["JOIN".data]
def insertPattern : List (List Char) := ["INSERT".data, "INTO".data]
def updatePattern : List (List Char) := ["UPDATE".data]
def deletePattern : List (List Char) := ["DELETE".data, "FROM".data]

/-! ## Python `set` modelled as an insertion-ordered duplicate-free list -/

/-- `set.add` (no-op when already present). -/
def setAdd (l : List String) (x : String) : List String :=
  if x ∈ l then l else l ++ [x]

/-- `set.update` with an iterable of matches. -/
def setUpdate (l : List String) (xs : List String) : List String :=
  xs.foldl setAdd l

/-- `re.findall` at the `String` level. -/
def findallS (kws : List (List Char)) (s : String) : List String :=
  (findall kws s.data).map fun l => String.mk l

/-- `SSISLineageExtractor._parse_sql_tables`: uppercase the SQL text,
collect `FROM`/`JOIN` captures as source tables and
`INSERT INTO`/`UPDATE`/`DELETE FROM` captures as target tables. -/
def parseSqlTables (sql : String) : List String × List String :=
  let sqlUpper := String.mk (sql.data.map Char.toUpper)
  let sourceTables :=
    setUpdate (setUpdate [] (findallS fromPattern sqlUpper))
      (findallS joinPattern sqlUpper)
  let targetTables :=
    setUpdate
      (setUpdate (setUpdate [] (findallS insertPattern sqlUpper))
        (findallS updatePattern sqlUpper))
      (findallS deletePattern sqlUpper)
  (sourceTables, targetTables)

/-! ## Element tree (the `xml.etree` boundary)

A parsed document is an ordered tree of elements, each with a tag
(namespaced tags are written in `\x7bnamespace-uri\x7dlocal` expanded
form, as `xml.etree` does), attributes, optional text, and children.
The tree is a mutual inductive so that the descendant enumeration is
mutually structural (and hence computable by the kernel). -/

mutual
inductive XNode where
  | mk : String → List (String × String) → Option String → XForest → XNode
inductive XForest where
  | nil : XForest
  | cons : XNode → XForest → XForest
end

def XNode.tag : XNode → String
  | .mk t _ _ _ => t

def XNode.attrs : XNode → List (String × String)
  | .mk _ a _ _ => a

def XNode.text : XNode → Option String
  | .mk _ _ x _ => x

def XNode.children : XNode → XForest
  | .mk _ _ _ cs => cs

/-- Build a forest from a list literal. -/
def XForest.ofList : List XNode → XForest
  | [] => .nil
  | n :: t => .cons n (XForest.ofList t)

mutual
/-- All proper descendants of a node, in document (preorder) order;
this is what an `ElementTree` `.//` query iterates over. -/
def descNode : XNode → List XNode
  | .mk _ _ _ cs => descForest cs
/-- All nodes of a forest together with their descendants, preorder. -/
def descForest : XForest → List XNode
  | .nil => []
  | .cons c rest => c :: (descNode c ++ descForest rest)
end

/-- `element.get(key)`: first attribute with the given key. -/
def XNode.get (n : XNode) (k : String) : Option String :=
  (n.attrs.find? fun kv => kv.1 = k).map fun kv => kv.2

/-- `element.get(key, default)`. -/
def XNode.getD (n : XNode) (k d : String) : String :=
  (n.get k).getD d

/-- `root.findall('.//tag[@attrKey="attrVal"]')`. -/
def findallTagAttr (root : XNode) (tag attrKey attrVal : String) : List XNode :=
  (descNode root).filter fun n => n.tag = tag && n.get attrKey == some attrVal

/-- `root.findall('.//tag')`. -/
def findallTag (root : XNode) (tag : String) : List XNode :=
  (descNode root).filter fun n => n.tag = tag

/-- The expanded form `xml.etree` gives to names in the
`www.microsoft.com/SqlServer/Dts` namespace (the `DTS:` prefix of the
source's namespace map). -/
def qnDTS (n : String) : String :=
  "\x7bwww.microsoft.com/SqlServer/Dts\x7d" ++ n

/-- Python `needle in hay` substring test (case-sensitive). -/
def containsSubL (needle : List Char) : List Char → Bool
  | [] => needle.isEmpty
  | c :: t => needle.isPrefixOf (c :: t) || containsSubL needle t

/-- Python `needle in hay` on strings. -/
def containsSub (needle hay : String) : Bool :=
  containsSubL needle.data hay.data

/-- Python `a or b` for an optional string: `None` and `""` are falsy. -/
def orElseStr (a : Option String) (b : String) : String :=
  match a with
  | some s => if s = "" then b else s
  | none => b

/-! ## Data model (the two dataclasses) -/

/-- `DataAsset` dataclass; omitted constructor arguments default to
`None` exactly as in the Python source. -/
structure DataAsset where
  id : String
  name : String
  type : String
  schema : Option String := none
  database : Option String := none
  columns : Option (List String) := none
deriving DecidableEq

/-- `DataTransformation` dataclass. -/
structure DataTransformation where
  id : String
  name : String
  type : String
  source_assets : Option (List String) := none
  target_assets : Option (List String) := none
  transformation_logic : Option String := none
deriving DecidableEq

/-! ## Python dict (insertion-ordered association list) -/

/-- `d[k] = v`: replace in place if the key is present, else append. -/
def dictInsert {α : Type} (k : String) (v : α) :
    List (String × α) → List (String × α)
  | [] => [(k, v)]
  | (k', v') :: t => if k' = k then (k, v) :: t else (k', v') :: dictInsert k v t

/-- `d.get(k)` / `d[k]`. -/
def dictLookup {α : Type} (k : String) : List (String × α) → Option α
  | [] => none
  | (k', v) :: t => if k' = k then some v else dictLookup k t

/-- `d.values()` in insertion order. -/
def dictValues {α : Type} (m : List (String × α)) : List α :=
  m.map fun kv => kv.2

/-- `d.update(d2)`. -/
def dictUpdate {α : Type} (m m2 : List (String × α)) : List (String × α) :=
  m2.foldl (fun acc kv => dictInsert kv.1 kv.2 acc) m

/-- The two accumulated dicts of `SSISLineageExtractor.__init__`. -/
structure ExtractorState where
  assets : List (String × DataAsset)
  transformations : List (String × DataTransformation)
deriving DecidableEq

def emptyState : ExtractorState := ⟨[], []⟩

/-! ## `SSISLineageExtractor` -/

/-- `_extract_table_name`: first `.//property` whose `name` attribute is
`OpenRowset` or `TableOrViewName`; returns that property's text. -/
def extractTableName (component : XNode) : Option String :=
  match
    (findallTag component "property").find? fun p =>
      p.get "name" == some "OpenRowset" || p.get "name" == some "TableOrViewName"
  with
  | some p => p.text
  | none => none

/-- `_extract_sql_statement`: first `.//property` whose `name` attribute
contains `"SQL"` (a case-sensitive Python `in` test); returns its text. -/
def extractSqlStatement (task : XNode) : Option String :=
  match
    (findallTag task "property").find? fun p => containsSub "SQL" (p.getD "name" "")
  with
  | some p => p.text
  | none => none

/-- Body of the source-component loop of `_extract_data_flows`. -/
def processSource (pkg : String) (st : ExtractorState) (source : XNode) :
    ExtractorState :=
  let sourceName := (source.get "name").getD "Unknown Source"
  let tableName := extractTableName source
  let assetId := pkg ++ "_" ++ sourceName
  { st with
    assets :=
      dictInsert assetId
        { id := assetId, name := orElseStr tableName sourceName,
          type := "source_table", schema := some "dbo" }
        st.assets }

/-- Body of the destination-component loop of `_extract_data_flows`. -/
def processDestination (pkg : String) (st : ExtractorState) (dest : XNode) :
    ExtractorState :=
  let destName := (dest.get "name").getD "Unknown Destination"
  let tableName := extractTableName dest
  let assetId := pkg ++ "_" ++ destName
  { st with
    assets :=
      dictInsert assetId
        { id := assetId, name := orElseStr tableName destName,
          type := "target_table", schema := some "dbo" }
        st.assets }

/-- Body of the data-flow loop of `_extract_data_flows`: register
source/destination component assets, then one `ssis_dataflow`
transformation whose source/target lists are the ids of every
`source_table`/`target_table` asset accumulated so far. -/
def processDataFlow (pkg : String) (st : ExtractorState) (df : XNode) :
    ExtractorState :=
  let dfName := (df.get (qnDTS "ObjectName")).getD "Unknown"
  let sources := findallTagAttr df "component" "componentClassID" "Microsoft.OLEDBSource"
  let st1 := sources.foldl (processSource pkg) st
  let dests := findallTagAttr df "component" "componentClassID" "Microsoft.OLEDBDestination"
  let st2 := dests.foldl (processDestination pkg) st1
  let transId := pkg ++ "_" ++ dfName
  { st2 with
    transformations :=
      dictInsert transId
        { id := transId, name := dfName, type := "ssis_dataflow",
          source_assets :=
            some (((dictValues st2.assets).filter fun a => a.type = "source_table").map
              fun a => a.id),
          target_assets :=
            some (((dictValues st2.assets).filter fun a => a.type = "target_table").map
              fun a => a.id) }
        st2.transformations }

/-- `_extract_data_flows`. -/
def extractDataFlows (root : XNode) (pkg : String) (st : ExtractorState) :
    ExtractorState :=
  (findallTagAttr root (qnDTS "Executable") (qnDTS "ExecutableType")
      "Microsoft.Pipeline").foldl
    (processDataFlow pkg) st

/-- Body of the SQL-task loop of `_extract_sql_tasks`: when an embedded
SQL statement is found (and is non-empty, Python truthiness), register a
`source_table`/`target_table` asset per parsed table and one `sql_task`
transformation that keeps only the first 500 characters of the SQL as
its logic (its `source_assets`/`target_assets` stay at the dataclass
default `None`). -/
def processSqlTask (pkg : String) (st : ExtractorState) (task : XNode) :
    ExtractorState :=
  let taskName := (task.get (qnDTS "ObjectName")).getD "Unknown SQL Task"
  match extractSqlStatement task with
  | none => st
  | some sql =>
    if sql = "" then st
    else
      let parsed := parseSqlTables sql
      let st1 := parsed.1.foldl
        (fun st table =>
          { st with
            assets :=
              dictInsert (pkg ++ "_" ++ table)
                { id := pkg ++ "_" ++ table, name := table, type := "source_table" }
                st.assets })
        st
      let st2 := parsed.2.foldl
        (fun st table =>
          { st with
            assets :=
              dictInsert (pkg ++ "_" ++ table)
                { id := pkg ++ "_" ++ table, name := table, type := "target_table" }
                st.assets })
        st1
      let transId := pkg ++ "_" ++ taskName
      { st2 with
        transformations :=
          dictInsert transId
            { id := transId, name := taskName, type := "sql_task",
              transformation_logic := some (String.mk (sql.data.take 500)) }
            st2.transformations }

/-- `_extract_sql_tasks`. -/
def extractSqlTasks (root : XNode) (pkg : String) (st : ExtractorState) :
    ExtractorState :=
  (findallTagAttr root (qnDTS "Executable") (qnDTS "ExecutableType")
      "Microsoft.ExecuteSQLTask").foldl
    (processSqlTask pkg) st

/-- `_extract_connections` only logs database names found in connection
strings; it never touches the extractor's dicts. -/
def extractConnections (root : XNode) (st : ExtractorState) : ExtractorState :=
  let _ := findallTag root (qnDTS "ConnectionManager")
  st

/-- A `.dtsx` input file: its `Path(...).stem` and the outcome of
`ET.parse` (`none` models a file on which the parser raises, i.e. a
document that is not well-formed). -/
structure DtsxFile where
  stem : String
  parsed : Option XNode

/-- `extract_from_dtsx`: on a parse failure the `except` branch returns
a pair of empty dicts and leaves the accumulated state untouched;
otherwise data flows, SQL tasks and connections are extracted in order
and the accumulated dicts themselves are returned. -/
def extractFromDtsx (st : ExtractorState) (f : DtsxFile) :
    ExtractorState × (List (String × DataAsset) × List (String × DataTransformation)) :=
  match f.parsed with
  | none => (st, ([], []))
  | some root =>
    let st1 := extractDataFlows root f.stem st
    let st2 := extractSqlTasks root f.stem st1
    let st3 := extractConnections root st2
    (st3, (st3.assets, st3.transformations))

/-- The batch loop of `main`: one shared extractor, accumulating
`all_assets.update(assets)` / `all_transformations.update(...)`. -/
def runBatch (st : ExtractorState)
    (allAssets : List (String × DataAsset))
    (allTrans : List (String × DataTransformation)) :
    List DtsxFile →
      ExtractorState × List (String × DataAsset) × List (String × DataTransformation)
  | [] => (st, allAssets, allTrans)
  | f :: fs =>
    let r := extractFromDtsx st f
    runBatch r.1 (dictUpdate allAssets r.2.1) (dictUpdate allTrans r.2.2) fs

/-! ## `LineageGraphBuilder` (the Neo4j boundary)

The store is modelled as a property graph: labelled nodes carrying the
`id`/`name` properties the Cypher `CREATE` statements set, and typed
relationships. -/

structure GNode where
  id : String
  name : String
  label : String
deriving DecidableEq

structure GEdge where
  rel : String
  src : String
  tgt : String
deriving DecidableEq

structure PGraph where
  nodes : List GNode
  edges : List GEdge
deriving DecidableEq

/-- `create_lineage_graph`: one `Asset` node per asset value, one
`Transformation` node per transformation value, then a `FEEDS_INTO`
edge per `source_assets` entry and a `PRODUCES` edge per
`target_assets` entry — each created only when both `MATCH` clauses
find their node (a dangling reference silently creates no edge). -/
def createLineageGraph (assets : List (String × DataAsset))
    (transformations : List (String × DataTransformation)) : PGraph :=
  let assetNodes := (dictValues assets).map fun a => GNode.mk a.id a.name "Asset"
  let transNodes :=
    (dictValues transformations).map fun t => GNode.mk t.id t.name "Transformation"
  let nodes := assetNodes ++ transNodes
  let feedEdges :=
    (dictValues transformations).flatMap fun t =>
      ((t.source_assets.getD []).filter fun sid =>
          (nodes.any fun n => n.label = "Asset" && n.id = sid) &&
            (nodes.any fun n => n.label = "Transformation" && n.id = t.id)).map
        fun sid => GEdge.mk "FEEDS_INTO" sid t.id
  let prodEdges :=
    (dictValues transformations).flatMap fun t =>
      ((t.target_assets.getD []).filter fun tid =>
          (nodes.any fun n => n.label = "Transformation" && n.id = t.id) &&
            (nodes.any fun n => n.label = "Asset" && n.id = tid)).map
        fun tid => GEdge.mk "PRODUCES" t.id tid
  ⟨nodes, feedEdges ++ prodEdges⟩

/-- All chains of 1 up to `fuel` consecutive `rel`-relationships
starting at `n`, as node sequences (the possible matches of a Cypher
variable-length pattern `(n)-[:rel*..fuel]->()`; repeated
relationships are not excluded, so this over-approximates Cypher's
relationship-unique matching — every path the store can return is in
this list). -/
def chainsFrom (g : PGraph) (rel : String) : Nat → GNode → List (List GNode)
  | 0, _ => []
  | fuel + 1, n =>
    (g.edges.filter fun e => e.rel = rel && e.src = n.id).flatMap fun e =>
      (g.nodes.filter fun m => m.id = e.tgt).flatMap fun m =>
        [n, m] :: (chainsFrom g rel fuel m).map fun p => n :: p

/-- Append an element only when new (for the `UNION` distinct-rows
semantics). -/
def pushUnique {α : Type} [DecidableEq α] (l : List α) (x : α) : List α :=
  if x ∈ l then l else l ++ [x]

/-- Distinct rows in first-seen order. -/
def distinctRows {α : Type} [DecidableEq α] (l : List α) : List α :=
  l.foldl pushUnique []

/-- The lineage report returned by `get_lineage_for_asset`. -/
structure LineageReport where
  asset : String
  lineage_paths : List (List GNode)
deriving DecidableEq

/-- `get_lineage_for_asset`: the union of the two Cypher queries
`MATCH path = (source:Asset)-[:FEEDS_INTO*..10]->(target:Asset {name: $asset_name})`
and
`MATCH path = (source:Asset {name: $asset_name})-[:PRODUCES*..10]->(target:Asset)`. -/
def getLineageForAsset (g : PGraph) (assetName : String) : LineageReport :=
  let feedsPaths :=
    g.nodes.flatMap fun s =>
      if s.label = "Asset" then
        (chainsFrom g "FEEDS_INTO" 10 s).filter fun p =>
          match p.getLast? with
          | some t => t.label = "Asset" && t.name = assetName
          | none => false
      else []
  let producesPaths :=
    g.nodes.flatMap fun s =>
      if s.label = "Asset" && s.name = assetName then
        (chainsFrom g "PRODUCES" 10 s).filter fun p =>
          match p.getLast? with
          | some t => t.label = "Asset"
          | none => false
      else []
  ⟨assetName, distinctRows (feedsPaths ++ producesPaths)⟩

/-! ## Concrete documents used by the claims -/

/-- `<property name="nm">txt</property>` -/
def propNode (nm : String) (txt : Option String) : XNode :=
  .mk "property" [("name", nm)] txt .nil

/-- `<component componentClassID="classID" name="nm">…</component>` -/
def compNode (classID nm : String) (props : List XNode) : XNode :=
  .mk "component" [("componentClassID", classID), ("name", nm)] none
    (.ofList props)

/-- A data-flow task executable. -/
def dataFlowNode (nm : String) (comps : List XNode) : XNode :=
  .mk (qnDTS "Executable")
    [(qnDTS "ExecutableType", "Microsoft.Pipeline"), (qnDTS "ObjectName", nm)]
    none (.ofList comps)

/-- An Execute-SQL task executable. -/
def sqlTaskNode (nm : String) (props : List XNode) : XNode :=
  .mk (qnDTS "Executable")
    [(qnDTS "ExecutableType", "Microsoft.ExecuteSQLTask"),
     (qnDTS "ObjectName", nm)]
    none (.ofList props)

/-- A package root element wrapping a list of tasks. -/
def docRoot (tasks : List XNode) : XNode :=
  .mk (qnDTS "Executable") [(qnDTS "ExecutableType", "SSIS.Package")] none
    (.ofList tasks)

/-- Document for C1: a data-flow source component named `CUSTOMERS`
(whose asset is registered with `schema="dbo"`), then a SQL task whose
statement references the same table, re-registering asset id
`Pkg_CUSTOMERS` with no schema. -/
def c1root : XNode :=
  docRoot
    [dataFlowNode "LoadCustomers"
      [compNode "Microsoft.OLEDBSource" "CUSTOMERS" []],
     sqlTaskNode "RunQuery"
      [propNode "SQLStatementSource" (some "SELECT * FROM Customers")]]

def c1doc : DtsxFile := ⟨"Pkg", some c1root⟩

/-- Document for C2: one SQL task whose statement property is named
`SQLStatementSource`. -/
def c2doc : DtsxFile :=
  ⟨"Pkg",
    some (docRoot
      [sqlTaskNode "LoadDim"
        [propNode "SQLStatementSource"
          (some "INSERT INTO DimCustomer SELECT * FROM StgCustomer")]])⟩

/-- Same document with the statement property named
`SqlStatementSource` (contains `"SQL"` case-insensitively but not
case-sensitively). -/
def c2docLower : DtsxFile :=
  ⟨"Pkg",
    some (docRoot
      [sqlTaskNode "LoadDim"
        [propNode "SqlStatementSource"
          (some "INSERT INTO DimCustomer SELECT * FROM StgCustomer")]])⟩

/-- Registry for C3: assets `StgCustomer` and `DimCustomer` and a single
transformation consuming the former and producing the latter. -/
def c3assets : List (String × DataAsset) :=
  [("P_StgCustomer", { id := "P_StgCustomer", name := "StgCustomer", type := "source_table" }),
   ("P_DimCustomer", { id := "P_DimCustomer", name := "DimCustomer", type := "target_table" })]

def c3trans : List (String × DataTransformation) :=
  [("P_Load",
    { id := "P_Load", name := "Load", type := "ssis_dataflow",
      source_assets := some ["P_StgCustomer"],
      target_assets := some ["P_DimCustomer"] })]

/-- Document for C6: one data-flow task `LoadCustomers` with exactly one
source component and one destination component. -/
def c6doc : DtsxFile :=
  ⟨"Pkg",
    some (docRoot
      [dataFlowNode "LoadCustomers"
        [compNode "Microsoft.OLEDBSource" "Customer Source"
          [propNode "OpenRowset" (some "StgCustomer")],
         compNode "Microsoft.OLEDBDestination" "Customer Destination"
          [propNode "OpenRowset" (some "DimCustomer")]]])⟩

/-- Document for C8: two data-flow tasks, each with one source and one
destination component. -/
def c8doc : DtsxFile :=
  ⟨"Pkg",
    some (docRoot
      [dataFlowNode "DF1"
        [compNode "Microsoft.OLEDBSource" "A" [],
         compNode "Microsoft.OLEDBDestination" "B" []],
       dataFlowNode "DF2"
        [compNode "Microsoft.OLEDBSource" "C" [],
         compNode "Microsoft.OLEDBDestination" "D" []]])⟩

/-- Documents for C9: two files with the same stem whose source
component `S` names different tables, so the second extraction
overwrites the value stored under asset id `Pkg_S`. -/
def c9docA : DtsxFile :=
  ⟨"Pkg",
    some (docRoot
      [dataFlowNode "DF"
        [compNode "Microsoft.OLEDBSource" "S" [propNode "OpenRowset" (some "TblA")]]])⟩

def c9docB : DtsxFile :=
  ⟨"Pkg",
    some (docRoot
      [dataFlowNode "DF"
        [compNode "Microsoft.OLEDBSource" "S" [propNode "OpenRowset" (some "TblB")]]])⟩

/-- A file whose document is not well-formed (`ET.parse` raises). -/
def badDoc : DtsxFile := ⟨"Broken", none⟩

/-- Cyclic graph used as the C5 witness: two `Asset` nodes with
`FEEDS_INTO` edges both ways (a cycle of length 2). -/
def cycGraph : PGraph :=
  ⟨[⟨"a", "A", "Asset"⟩, ⟨"b", "B", "Asset"⟩],
   [⟨"FEEDS_INTO", "a", "b"⟩, ⟨"FEEDS_INTO", "b", "a"⟩]⟩

/-! ## Key-set bookkeeping

The dict keys inserted while processing a document are a function of
the document and package name alone (the values may depend on earlier
state, the keys never do). The following definitions compute those key
lists, and `KeySpec` relates a state transformer to the keys it adds. -/

def sourceAssetKey (pkg : String) (c : XNode) : String :=
  pkg ++ "_" ++ (c.get "name").getD "Unknown Source"

def destAssetKey (pkg : String) (c : XNode) : String :=
  pkg ++ "_" ++ (c.get "name").getD "Unknown Destination"

def dataFlowAssetKeys (pkg : String) (df : XNode) : List String :=
  (findallTagAttr df "component" "componentClassID" "Microsoft.OLEDBSource").map
      (sourceAssetKey pkg) ++
    (findallTagAttr df "component" "componentClassID"
        "Microsoft.OLEDBDestination").map
      (destAssetKey pkg)

def dataFlowTransKeys (pkg : String) (df : XNode) : List String :=
  [pkg ++ "_" ++ (df.get (qnDTS "ObjectName")).getD "Unknown"]

def sqlTaskAssetKeys (pkg : String) (task : XNode) : List String :=
  match extractSqlStatement task with
  | none => []
  | some sql =>
    if sql = "" then []
    else
      (parseSqlTables sql).1.map (fun t => pkg ++ "_" ++ t) ++
        (parseSqlTables sql).2.map (fun t => pkg ++ "_" ++ t)

def sqlTaskTransKeys (pkg : String) (task : XNode) : List String :=
  match extractSqlStatement task with
  | none => []
  | some sql =>
    if sql = "" then []
    else [pkg ++ "_" ++ (task.get (qnDTS "ObjectName")).getD "Unknown SQL Task"]

def docAssetKeys (f : DtsxFile) : List String :=
  match f.parsed with
  | none => []
  | some root =>
    (findallTagAttr root (qnDTS "Executable") (qnDTS "ExecutableType")
          "Microsoft.Pipeline").flatMap
        (dataFlowAssetKeys f.stem) ++
      (findallTagAttr root (qnDTS "Executable") (qnDTS "ExecutableType")
          "Microsoft.ExecuteSQLTask").flatMap
        (sqlTaskAssetKeys f.stem)

def docTransKeys (f : DtsxFile) : List String :=
  match f.parsed with
  | none => []
  | some root =>
    (findallTagAttr root (qnDTS "Executable") (qnDTS "ExecutableType")
          "Microsoft.Pipeline").flatMap
        (dataFlowTransKeys f.stem) ++
      (findallTagAttr root (qnDTS "Executable") (qnDTS "ExecutableType")
          "Microsoft.ExecuteSQLTask").flatMap
        (sqlTaskTransKeys f.stem)

/-- `f` adds exactly the asset keys `ka` and transformation keys `kt`
to the dicts (presence-wise), never removing a key. -/
def KeySpec (f : ExtractorState → ExtractorState) (ka kt : List String) : Prop :=
  ∀ st k,
    ((dictLookup k (f st).assets).isSome = true ↔
      (dictLookup k st.assets).isSome = true ∨ k ∈ ka) ∧
    ((dictLookup k (f st).transformations).isSome = true ↔
      (dictLookup k st.transformations).isSome = true ∨ k ∈ kt)

/-- Context condition under which a `FROM\s+(\w+(?:\.\w+)?)` match
starting inside the remaining text cannot be jumped over by the
left-to-right `re.findall` scan: everything before the match site is
whitespace, or ends with the letter `E` followed by at least one
whitespace character (as the prefix `…DELETE␣` of a `DELETE FROM`
occurrence does). -/
def CondE (a : List Char) : Prop :=
  (∀ c ∈ a, isSpc c = true) ∨
    ∃ b sp, a = b ++ 'E' :: sp ∧ sp ≠ [] ∧ ∀ c ∈ sp, isSpc c = true

theorem dictLookup_dictInsert_isSome {α : Type} (k k' : String) (v : α)
    (m : List (String × α)) :
    (dictLookup k (dictInsert k' v m)).isSome = true ↔
      k = k' ∨ (dictLookup k m).isSome = true := by
  induction m with
  | nil =>
    by_cases h : k' = k
    · subst h; simp [dictInsert, dictLookup]
    · simp [dictInsert, dictLookup, h, Ne.symm h]
  | cons kv t ih =>
    by_cases h1 : kv.1 = k'
    · by_cases h2 : k' = k
      · subst h2; simp [dictInsert, dictLookup, h1]
      · have hk : ¬ kv.1 = k := fun hh => h2 (h1.symm.trans hh)
        simp [dictInsert, dictLookup, h1, h2, hk, Ne.symm h2]
    · by_cases h2 : kv.1 = k
      · have hk' : ¬ k = k' := fun hh => h1 (h2.trans hh)
        simp [dictInsert, dictLookup, h1, h2, hk']
      · simp [dictInsert, dictLookup, h1, h2, ih]

theorem keySpec_foldl {β : Type} (f : ExtractorState → β → ExtractorState)
    (ka kt : β → List String)
    (hf : ∀ b, KeySpec (fun st => f st b) (ka b) (kt b)) :
    ∀ l : List β,
      KeySpec (fun st => l.foldl f st) (l.flatMap ka) (l.flatMap kt) := by
  intro l
  induction l with
  | nil => intro st k; simp [List.foldl_nil]
  | cons b t ih =>
    intro st k
    have h1 := hf b st k
    have h2 := ih (f st b) k
    refine ⟨?_, ?_⟩
    · show (dictLookup k (List.foldl f (f st b) t).assets).isSome = true ↔
        (dictLookup k st.assets).isSome = true ∨ k ∈ (b :: t).flatMap ka
      rw [List.flatMap_cons]
      constructor
      · intro hs
        rcases h2.1.mp hs with hs' | hmem
        · rcases h1.1.mp hs' with hs'' | hmem'
          · exact Or.inl hs''
          · exact Or.inr (List.mem_append.mpr (Or.inl hmem'))
        · exact Or.inr (List.mem_append.mpr (Or.inr hmem))
      · intro h
        apply h2.1.mpr
        rcases h with hs | hmem
        · exact Or.inl (h1.1.mpr (Or.inl hs))
        · rcases List.mem_append.mp hmem with hm | hm
          · exact Or.inl (h1.1.mpr (Or.inr hm))
          · exact Or.inr hm
    · show (dictLookup k (List.foldl f (f st b) t).transformations).isSome = true ↔
        (dictLookup k st.transformations).isSome = true ∨ k ∈ (b :: t).flatMap kt
      rw [List.flatMap_cons]
      constructor
      · intro hs
        rcases h2.2.mp hs with hs' | hmem
        · rcases h1.2.mp hs' with hs'' | hmem'
          · exact Or.inl hs''
          · exact Or.inr (List.mem_append.mpr (Or.inl hmem'))
        · exact Or.inr (List.mem_append.mpr (Or.inr hmem))
      · intro h
        apply h2.2.mpr
        rcases h with hs | hmem
        · exact Or.inl (h1.2.mpr (Or.inl hs))
        · rcases List.mem_append.mp hmem with hm | hm
          · exact Or.inl (h1.2.mpr (Or.inr hm))
          · exact Or.inr hm

theorem flatMap_singleton_eq_map {α β : Type} (g : α → β) (l : List α) :
    l.flatMap (fun x => [g x]) = l.map g := by
  induction l with
  | nil => rfl
  | cons a t ih => simp [ih]

theorem keySpec_ext (g : ExtractorState → ExtractorState)
    {f : ExtractorState → ExtractorState} (h : ∀ st, f st = g st)
    {ka kt : List String} (hg : KeySpec g ka kt) : KeySpec f ka kt := by
  intro st k
  have hh := hg st k
  rw [← h st] at hh
  exact hh

theorem keySpec_congr {f : ExtractorState → ExtractorState}
    {ka kt ka' kt' : List String} (h : KeySpec f ka kt)
    (ha : ∀ k, k ∈ ka ↔ k ∈ ka') (ht : ∀ k, k ∈ kt ↔ k ∈ kt') :
    KeySpec f ka' kt' := by
  intro st k
  exact ⟨(h st k).1.trans (or_congr Iff.rfl (ha k)),
    (h st k).2.trans (or_congr Iff.rfl (ht k))⟩

theorem keySpec_comp {f g : ExtractorState → ExtractorState}
    {ka kt ka' kt' : List String}
    (hf : KeySpec f ka kt) (hg : KeySpec g ka' kt') :
    KeySpec (fun st => g (f st)) (ka ++ ka') (kt ++ kt') := by
  intro st k
  have h1 := hf st k
  have h2 := hg (f st) k
  refine ⟨⟨?_, ?_⟩, ⟨?_, ?_⟩⟩
  · intro hs
    rcases h2.1.mp hs with hs' | hm
    · rcases h1.1.mp hs' with hs'' | hm'
      · exact Or.inl hs''
      · exact Or.inr (List.mem_append.mpr (Or.inl hm'))
    · exact Or.inr (List.mem_append.mpr (Or.inr hm))
  · intro h
    apply h2.1.mpr
    rcases h with hs | hm
    · exact Or.inl (h1.1.mpr (Or.inl hs))
    · rcases List.mem_append.mp hm with hm' | hm'
      · exact Or.inl (h1.1.mpr (Or.inr hm'))
      · exact Or.inr hm'
  · intro hs
    rcases h2.2.mp hs with hs' | hm
    · rcases h1.2.mp hs' with hs'' | hm'
      · exact Or.inl hs''
      · exact Or.inr (List.mem_append.mpr (Or.inl hm'))
    · exact Or.inr (List.mem_append.mpr (Or.inr hm))
  · intro h
    apply h2.2.mpr
    rcases h with hs | hm
    · exact Or.inl (h1.2.mpr (Or.inl hs))
    · rcases List.mem_append.mp hm with hm' | hm'
      · exact Or.inl (h1.2.mpr (Or.inr hm'))
      · exact Or.inr hm'

theorem keySpec_idFun : KeySpec (fun st => st) [] [] := by
  intro st k
  simp

theorem keySpec_mkAsset (key : String) (val : DataAsset) :
    KeySpec (fun st => { st with assets := dictInsert key val st.assets })
      [key] [] := by
  intro st k
  constructor
  · show (dictLookup k (dictInsert key val st.assets)).isSome = true ↔ _
    rw [dictLookup_dictInsert_isSome]
    simp only [List.mem_singleton]
    exact or_comm
  · simp

theorem keySpec_mkTrans (key : String)
    (val : ExtractorState → DataTransformation) :
    KeySpec
      (fun st =>
        { st with transformations := dictInsert key (val st) st.transformations })
      [] [key] := by
  intro st k
  constructor
  · simp
  · show (dictLookup k (dictInsert key (val st) st.transformations)).isSome = true ↔ _
    rw [dictLookup_dictInsert_isSome]
    simp only [List.mem_singleton]
    exact or_comm

theorem keySpec_processSource (pkg : String) (c : XNode) :
    KeySpec (fun st => processSource pkg st c) [sourceAssetKey pkg c] [] :=
  keySpec_ext
    (fun st =>
      { st with
        assets :=
          dictInsert (sourceAssetKey pkg c)
            { id := sourceAssetKey pkg c,
              name := orElseStr (extractTableName c)
                ((c.get "name").getD "Unknown Source"),
              type := "source_table", schema := some "dbo" }
            st.assets })
    (fun _ => rfl)
    (keySpec_mkAsset _ _)

theorem keySpec_processDestination (pkg : String) (c : XNode) :
    KeySpec (fun st => processDestination pkg st c) [destAssetKey pkg c] [] :=
  keySpec_ext
    (fun st =>
      { st with
        assets :=
          dictInsert (destAssetKey pkg c)
            { id := destAssetKey pkg c,
              name := orElseStr (extractTableName c)
                ((c.get "name").getD "Unknown Destination"),
              type := "target_table", schema := some "dbo" }
            st.assets })
    (fun _ => rfl)
    (keySpec_mkAsset _ _)

theorem keySpec_processDataFlow (pkg : String) (df : XNode) :
    KeySpec (fun st => processDataFlow pkg st df)
      (dataFlowAssetKeys pkg df) (dataFlowTransKeys pkg df) := by
  have hsrc := keySpec_foldl (processSource pkg)
    (fun c => [sourceAssetKey pkg c]) (fun _ => [])
    (fun c => keySpec_processSource pkg c)
    (findallTagAttr df "component" "componentClassID" "Microsoft.OLEDBSource")
  have hdst := keySpec_foldl (processDestination pkg)
    (fun c => [destAssetKey pkg c]) (fun _ => [])
    (fun c => keySpec_processDestination pkg c)
    (findallTagAttr df "component" "componentClassID" "Microsoft.OLEDBDestination")
  have hins := keySpec_mkTrans
    (pkg ++ "_" ++ (df.get (qnDTS "ObjectName")).getD "Unknown")
    (fun s2 =>
      { id := pkg ++ "_" ++ (df.get (qnDTS "ObjectName")).getD "Unknown",
        name := (df.get (qnDTS "ObjectName")).getD "Unknown",
        type := "ssis_dataflow",
        source_assets :=
          some (((dictValues s2.assets).filter fun a => a.type = "source_table").map
            fun a => a.id),
        target_assets :=
          some (((dictValues s2.assets).filter fun a => a.type = "target_table").map
            fun a => a.id) })
  have hcomp := keySpec_comp (keySpec_comp hsrc hdst) hins
  refine keySpec_congr (keySpec_ext _ (fun _ => rfl) hcomp) ?_ ?_
  · intro k
    simp [dataFlowAssetKeys, flatMap_singleton_eq_map]
  · intro k
    simp [dataFlowTransKeys]

theorem keySpec_extractDataFlows (root : XNode) (pkg : String) :
    KeySpec (fun st => extractDataFlows root pkg st)
      ((findallTagAttr root (qnDTS "Executable") (qnDTS "ExecutableType")
          "Microsoft.Pipeline").flatMap (dataFlowAssetKeys pkg))
      ((findallTagAttr root (qnDTS "Executable") (qnDTS "ExecutableType")
          "Microsoft.Pipeline").flatMap (dataFlowTransKeys pkg)) :=
  keySpec_foldl (processDataFlow pkg) _ _ (keySpec_processDataFlow pkg) _

theorem keySpec_processSqlTask (pkg : String) (task : XNode) :
    KeySpec (fun st => processSqlTask pkg st task)
      (sqlTaskAssetKeys pkg task) (sqlTaskTransKeys pkg task) := by
  rcases hsql : extractSqlStatement task with _ | sql
  · refine keySpec_congr (keySpec_ext (fun st => st) ?_ keySpec_idFun) ?_ ?_
    · intro st; simp [processSqlTask, hsql]
    · intro k; simp [sqlTaskAssetKeys, hsql]
    · intro k; simp [sqlTaskTransKeys, hsql]
  · by_cases hemp : sql = ""
    · refine keySpec_congr (keySpec_ext (fun st => st) ?_ keySpec_idFun) ?_ ?_
      · intro st; simp [processSqlTask, hsql, hemp]
      · intro k; simp [sqlTaskAssetKeys, hsql, hemp]
      · intro k; simp [sqlTaskTransKeys, hsql, hemp]
    · have hfold1 := keySpec_foldl
        (fun st table =>
          { st with
            assets :=
              dictInsert (pkg ++ "_" ++ table)
                { id := pkg ++ "_" ++ table, name := table, type := "source_table" }
                st.assets })
        (fun table => [pkg ++ "_" ++ table]) (fun _ => [])
        (fun table => keySpec_mkAsset (pkg ++ "_" ++ table) _)
        (parseSqlTables sql).1
      have hfold2 := keySpec_foldl
        (fun st table =>
          { st with
            assets :=
              dictInsert (pkg ++ "_" ++ table)
                { id := pkg ++ "_" ++ table, name := table, type := "target_table" }
                st.assets })
        (fun table => [pkg ++ "_" ++ table]) (fun _ => [])
        (fun table => keySpec_mkAsset (pkg ++ "_" ++ table) _)
        (parseSqlTables sql).2
      have hins := keySpec_mkTrans
        (pkg ++ "_" ++ (task.get (qnDTS "ObjectName")).getD "Unknown SQL Task")
        (fun _ =>
          { id := pkg ++ "_" ++ (task.get (qnDTS "ObjectName")).getD "Unknown SQL Task",
            name := (task.get (qnDTS "ObjectName")).getD "Unknown SQL Task",
            type := "sql_task",
            transformation_logic := some (String.mk (sql.data.take 500)) })
      have hcomp := keySpec_comp (keySpec_comp hfold1 hfold2) hins
      refine keySpec_congr (keySpec_ext _ ?_ hcomp) ?_ ?_
      · intro st
        simp only [processSqlTask, hsql]
        rw [if_neg hemp]
      · intro k
        simp [sqlTaskAssetKeys, hsql, hemp, flatMap_singleton_eq_map]
      · intro k
        simp [sqlTaskTransKeys, hsql, hemp]

theorem keySpec_extractSqlTasks (root : XNode) (pkg : String) :
    KeySpec (fun st => extractSqlTasks root pkg st)
      ((findallTagAttr root (qnDTS "Executable") (qnDTS "ExecutableType")
          "Microsoft.ExecuteSQLTask").flatMap (sqlTaskAssetKeys pkg))
      ((findallTagAttr root (qnDTS "Executable") (qnDTS "ExecutableType")
          "Microsoft.ExecuteSQLTask").flatMap (sqlTaskTransKeys pkg)) :=
  keySpec_foldl (processSqlTask pkg) _ _ (keySpec_processSqlTask pkg) _

theorem keySpec_extractFromDtsx (f : DtsxFile) :
    KeySpec (fun st => (extractFromDtsx st f).1)
      (docAssetKeys f) (docTransKeys f) := by
  rcases hp : f.parsed with _ | root
  · refine keySpec_congr (keySpec_ext (fun st => st) ?_ keySpec_idFun) ?_ ?_
    · intro st; simp [extractFromDtsx, hp]
    · intro k; simp [docAssetKeys, hp]
    · intro k; simp [docTransKeys, hp]
  · have hcomp := keySpec_comp (keySpec_extractDataFlows root f.stem)
      (keySpec_extractSqlTasks root f.stem)
    refine keySpec_congr (keySpec_ext _ ?_ hcomp) ?_ ?_
    · intro st; simp [extractFromDtsx, hp, extractConnections]
    · intro k; simp [docAssetKeys, hp]
    · intro k; simp [docTransKeys, hp]

theorem chainsFrom_length_le (g : PGraph) (rel : String) :
    ∀ (fuel : Nat) (n : GNode) (p : List GNode),
      p ∈ chainsFrom g rel fuel n → p.length ≤ fuel + 1 := by
  intro fuel
  induction fuel with
  | zero => intro n p hp; simp [chainsFrom] at hp
  | succ fuel ih =>
    intro n p hp
    simp only [chainsFrom, List.mem_flatMap] at hp
    obtain ⟨e, -, m, -, hp⟩ := hp
    rcases List.mem_cons.mp hp with h | h
    · subst h; simp
    · obtain ⟨q, hq, rfl⟩ := List.mem_map.mp h
      have := ih m q hq
      simpa using Nat.succ_le_succ this

theorem mem_foldl_pushUnique {α : Type} [DecidableEq α] :
    ∀ (l acc : List α) (x : α), x ∈ l.foldl pushUnique acc ↔ x ∈ acc ∨ x ∈ l := by
  intro l
  induction l with
  | nil => simp
  | cons y t ih =>
    intro acc x
    simp only [List.foldl_cons, ih, pushUnique]
    by_cases hy : y ∈ acc
    · simp only [if_pos hy, List.mem_cons]
      constructor
      · tauto
      · rintro (h | h | h)
        · exact Or.inl h
        · subst h; exact Or.inl hy
        · exact Or.inr h
    · simp only [if_neg hy, List.mem_append, List.mem_cons,
        List.mem_singleton]
      tauto

theorem mem_distinctRows {α : Type} [DecidableEq α] (l : List α) (x : α) :
    x ∈ distinctRows l ↔ x ∈ l := by
  simp [distinctRows, mem_foldl_pushUnique]

/-! ## Claim C1 (merge policy) -/

/-- C1, counterexample: registration is a plain dict overwrite, not the
claimed field-level merge. In `c1doc` the data-flow pass registers asset
`Pkg_CUSTOMERS` with the present non-empty field `schema="dbo"`; the SQL
task pass then re-registers the same key with `schema` absent, and the
final entity has lost the schema — a present non-empty field was
overwritten by an absent one. -/
theorem c1_counterexample :
    dictLookup "Pkg_CUSTOMERS" (extractDataFlows c1root "Pkg" emptyState).assets =
      some { id := "Pkg_CUSTOMERS", name := "CUSTOMERS", type := "source_table",
             schema := some "dbo" } ∧
    dictLookup "Pkg_CUSTOMERS" (extractFromDtsx emptyState c1doc).1.assets =
      some { id := "Pkg_CUSTOMERS", name := "CUSTOMERS", type := "source_table",
             schema := none } := by
  constructor <;> decide

/-- C1, amended: when two Asset candidates are registered under the same
key, the later candidate wholly replaces the earlier one (last write
wins for every field, whether or not the earlier field was non-empty):
the registry afterwards holds exactly the later candidate. -/
theorem c1_amended (k : String) (v v' : DataAsset)
    (m : List (String × DataAsset)) :
    dictLookup k (dictInsert k v' (dictInsert k v m)) = some v' := by
  induction m with
  | nil => simp [dictInsert, dictLookup]
  | cons kv t ih =>
    by_cases h : kv.1 = k <;>
      simp [dictInsert, dictLookup, h, ih]

/-! ## Claim C2 (query-task extraction) -/

/-- C2, counterexample: for `c2doc` the resolver finds a non-empty
source set and target set for the embedded statement, yet the single
`sql_task` transformation is created with `source_assets` and
`target_assets` both `None`; and for `c2docLower`, whose statement
property name contains `"SQL"` only case-insensitively (`Sql…`), no
transformation is created at all. -/
theorem c2_counterexample :
    (extractFromDtsx emptyState c2doc).1.transformations =
      [("Pkg_LoadDim",
        { id := "Pkg_LoadDim", name := "LoadDim", type := "sql_task",
          source_assets := none, target_assets := none,
          transformation_logic :=
            some "INSERT INTO DimCustomer SELECT * FROM StgCustomer" })] ∧
    (parseSqlTables "INSERT INTO DimCustomer SELECT * FROM StgCustomer").1 =
      ["STGCUSTOMER"] ∧
    (parseSqlTables "INSERT INTO DimCustomer SELECT * FROM StgCustomer").2 =
      ["DIMCUSTOMER"] ∧
    (extractFromDtsx emptyState c2docLower).1 = emptyState := by
  refine ⟨by decide, by decide, by decide, by decide⟩

/-- C2, amended: a query-task node whose statement property name
contains `"SQL"` case-sensitively yields one `sql_task` Transformation
whose `transformation_logic` is the (truncated) statement text but whose
`source_assets`/`target_assets` stay at the default `None`; the
resolver's source/target tables instead become `source_table` /
`target_table` Assets of the registry. -/
theorem c2_amended :
    (extractFromDtsx emptyState c2doc).1 =
      ⟨[("Pkg_STGCUSTOMER",
         { id := "Pkg_STGCUSTOMER", name := "STGCUSTOMER", type := "source_table" }),
        ("Pkg_DIMCUSTOMER",
         { id := "Pkg_DIMCUSTOMER", name := "DIMCUSTOMER", type := "target_table" })],
       [("Pkg_LoadDim",
         { id := "Pkg_LoadDim", name := "LoadDim", type := "sql_task",
           transformation_logic :=
             some (String.mk
               ("INSERT INTO DimCustomer SELECT * FROM StgCustomer".data.take 500)) })]⟩ := by
  decide

/-! ## Claim C3 (lineage query example) -/

/-- C3: the graph built from `StgCustomer → Load → DimCustomer` does
contain the expected `FEEDS_INTO` and `PRODUCES` edges, but the Cypher
query of `get_lineage_for_asset` matches only homogeneous
`FEEDS_INTO*`/`PRODUCES*` chains between two `Asset` endpoints — which
cannot exist, because every `FEEDS_INTO` edge ends at a `Transformation`
node and every `PRODUCES` edge starts at one — so the query returns no
path at all instead of the claimed `[StgCustomer, Load, DimCustomer]`. -/
theorem c3_lineage_query_returns_no_path :
    (createLineageGraph c3assets c3trans).edges =
      [⟨"FEEDS_INTO", "P_StgCustomer", "P_Load"⟩,
       ⟨"PRODUCES", "P_Load", "P_DimCustomer"⟩] ∧
    getLineageForAsset (createLineageGraph c3assets c3trans) "DimCustomer" =
      ⟨"DimCustomer", []⟩ := by
  constructor <;> decide

/-! ## Claim C4 (resolver exactness) -/

/-- C4, counterexample: `"DELETE FROM Logs"` has no `FROM`/`JOIN`
clause (its only clause is a `DELETE FROM` clause), so the claim
requires an empty source set; the resolver nevertheless returns `LOGS`
as a source, because its `FROM` pattern also matches the `FROM` inside
`DELETE FROM`. -/
theorem c4_counterexample :
    parseSqlTables "DELETE FROM Logs" = (["LOGS"], ["LOGS"]) := by decide

/-- C4, amended: the resolver returns, upper-cased, the identifiers
following `FROM`/`JOIN` keyword occurrences as sources (the `FROM`
inside a `DELETE FROM` included, so such an identifier lands in both
sets) and those following `INSERT INTO`/`UPDATE`/`DELETE FROM` as
targets; both spec examples hold as stated. -/
theorem c4_amended :
    parseSqlTables "SELECT * FROM Customers c JOIN Orders o ON c.id=o.cid" =
      (["CUSTOMERS", "ORDERS"], []) ∧
    parseSqlTables "INSERT INTO DimCustomer SELECT * FROM StgCustomer" =
      (["STGCUSTOMER"], ["DIMCUSTOMER"]) ∧
    parseSqlTables "UPDATE Dim SET x = 1 WHERE id IN (SELECT id FROM Stg)" =
      (["STG"], ["DIM"]) := by
  refine ⟨by decide, by decide, by decide⟩

/-! ## Claim C5 (bounded traversal) -/

/-- C5: on every graph — cyclic ones included — the lineage query is a
total function whose every returned path visits at most
`max_hops + 1 = 11` entities (the Cypher patterns allow at most 10
relationships per path). -/
theorem c5_path_length_bound (g : PGraph) (assetName : String)
    (p : List GNode)
    (hp : p ∈ (getLineageForAsset g assetName).lineage_paths) :
    p.length ≤ 11 := by
  simp only [getLineageForAsset, mem_distinctRows, List.mem_append,
    List.mem_flatMap] at hp
  rcases hp with ⟨s, -, hp⟩ | ⟨s, -, hp⟩ <;>
    [skip; skip] <;>
  · split at hp
    · exact chainsFrom_length_le g _ 10 s p (List.mem_filter.mp hp).1
    · simp at hp

/-- C5, witness: in the cyclic two-asset graph the query does return
paths (so the bound theorem is not vacuous), and each satisfies the
bound. -/
theorem c5_path_length_bound_witness :
    [⟨"a", "A", "Asset"⟩, ⟨"b", "B", "Asset"⟩] ∈
        (getLineageForAsset cycGraph "B").lineage_paths ∧
      ([(⟨"a", "A", "Asset"⟩ : GNode), ⟨"b", "B", "Asset"⟩]).length ≤ 11 :=
  ⟨by decide, c5_path_length_bound cycGraph "B" _ (by decide)⟩

/-! ## Claim C6 (data-flow example) -/

/-- C6: extracting a document whose only content is the data-flow task
`LoadCustomers` with one source and one destination component yields
exactly two Assets (one `source_table`, one `target_table`) and exactly
one Transformation with exactly one source id and one target id. -/
theorem c6_dataflow_example :
    (extractFromDtsx emptyState c6doc).1 =
      ⟨[("Pkg_Customer Source",
         { id := "Pkg_Customer Source", name := "StgCustomer",
           type := "source_table", schema := some "dbo" }),
        ("Pkg_Customer Destination",
         { id := "Pkg_Customer Destination", name := "DimCustomer",
           type := "target_table", schema := some "dbo" })],
       [("Pkg_LoadCustomers",
         { id := "Pkg_LoadCustomers", name := "LoadCustomers",
           type := "ssis_dataflow",
           source_assets := some ["Pkg_Customer Source"],
           target_assets := some ["Pkg_Customer Destination"] })]⟩ := by
  decide

/-! ## Claim C7 (malformed documents are skipped) -/

/-- C7: a document that fails to parse is skipped without aborting the
batch — `extract_from_dtsx` absorbs the failure (returning empty dicts,
state untouched), so running the batch with the malformed file inserted
anywhere gives exactly the same extractor state and accumulated output
as running it without that file. -/
theorem c7_malformed_skipped (st : ExtractorState)
    (allAssets : List (String × DataAsset))
    (allTrans : List (String × DataTransformation))
    (pre post : List DtsxFile) (bad : DtsxFile)
    (hbad : bad.parsed = none) :
    runBatch st allAssets allTrans (pre ++ bad :: post) =
      runBatch st allAssets allTrans (pre ++ post) := by
  induction pre generalizing st allAssets allTrans with
  | nil =>
    simp only [List.nil_append, runBatch, extractFromDtsx, hbad]
    rfl
  | cons d pre ih =>
    simp only [List.cons_append, runBatch]
    exact ih _ _ _

/-- C7, witness: concretely, a batch of a well-formed document followed
by a malformed one equals the batch of the well-formed document alone. -/
theorem c7_malformed_skipped_witness :
    badDoc.parsed = none ∧
      runBatch emptyState [] [] [c6doc, badDoc] =
        runBatch emptyState [] [] [c6doc] :=
  ⟨rfl, c7_malformed_skipped emptyState [] [] [c6doc] [] badDoc rfl⟩

/-! ## Claim C8 (re-extraction idempotence) -/

/-- C8, counterexample: re-extracting `c8doc` (two data-flow tasks) on
the same extractor changes the stored transformations — during the
second pass the first data flow's transformation absorbs the assets the
second data flow had registered — and therefore also changes the
derived edge set. -/
theorem c8_counterexample :
    ¬ ((extractFromDtsx (extractFromDtsx emptyState c8doc).1 c8doc).1.transformations =
        (extractFromDtsx emptyState c8doc).1.transformations) ∧
    ¬ ((createLineageGraph
          (extractFromDtsx (extractFromDtsx emptyState c8doc).1 c8doc).1.assets
          (extractFromDtsx (extractFromDtsx emptyState c8doc).1 c8doc).1.transformations).edges =
        (createLineageGraph (extractFromDtsx emptyState c8doc).1.assets
          (extractFromDtsx emptyState c8doc).1.transformations).edges) := by
  constructor <;> decide

/-- C8, amended: re-extracting the identical document twice yields
identical canonical entity id sets — every asset id and transformation
id present after the first extraction is present after the second and
vice versa — though the transformations' source/target lists (and hence
the edge sets) may differ when a document holds more than one
lineage-bearing task. -/
theorem c8_amended_entity_ids_stable (f : DtsxFile) (k : String) :
    ((dictLookup k (extractFromDtsx (extractFromDtsx emptyState f).1 f).1.assets).isSome = true ↔
      (dictLookup k (extractFromDtsx emptyState f).1.assets).isSome = true) ∧
    ((dictLookup k (extractFromDtsx (extractFromDtsx emptyState f).1 f).1.transformations).isSome = true ↔
      (dictLookup k (extractFromDtsx emptyState f).1.transformations).isSome = true) := by
  have h1 := keySpec_extractFromDtsx f emptyState k
  have h2 := keySpec_extractFromDtsx f (extractFromDtsx emptyState f).1 k
  constructor
  · constructor
    · intro hs
      rcases h2.1.mp hs with h | h
      · exact h
      · exact h1.1.mpr (Or.inr h)
    · intro hs
      exact h2.1.mpr (Or.inl hs)
  · constructor
    · intro hs
      rcases h2.2.mp hs with h | h
      · exact h
      · exact h1.2.mpr (Or.inr h)
    · intro hs
      exact h2.2.mpr (Or.inl hs)

/-! ## Claim C9 (extractor state accumulation) -/

/-- C9, counterexample: an `(id, entity)` entry present before a call is
not always present afterwards — a later document with the same package
stem re-registers the id and replaces the value (here the asset name
changes from `TblA` to `TblB`), so only the id survives, not the entry. -/
theorem c9_counterexample :
    dictLookup "Pkg_S" (extractFromDtsx emptyState c9docA).1.assets =
      some { id := "Pkg_S", name := "TblA", type := "source_table",
             schema := some "dbo" } ∧
    dictLookup "Pkg_S" (extractFromDtsx (extractFromDtsx emptyState c9docA).1 c9docB).1.assets =
      some { id := "Pkg_S", name := "TblB", type := "source_table",
             schema := some "dbo" } := by
  constructor <;> decide

/-- C9, amended: extractor state only grows and is never reset — every
id (key) present in either dict before a call to `extract_from_dtsx` is
still a key afterwards (its value may have been overwritten), and a
successful call returns the accumulated dicts themselves, hence all
entities from earlier calls, not only the current document's. -/
theorem c9_amended_keys_monotone (st : ExtractorState) (f : DtsxFile)
    (k : String) :
    ((dictLookup k st.assets).isSome = true →
        (dictLookup k (extractFromDtsx st f).1.assets).isSome = true) ∧
      ((dictLookup k st.transformations).isSome = true →
        (dictLookup k (extractFromDtsx st f).1.transformations).isSome = true) ∧
      (∀ root, f.parsed = some root →
        (extractFromDtsx st f).2 =
          ((extractFromDtsx st f).1.assets,
            (extractFromDtsx st f).1.transformations)) := by
  have h := keySpec_extractFromDtsx f st k
  refine ⟨fun hs => h.1.mpr (Or.inl hs), fun hs => h.2.mpr (Or.inl hs), ?_⟩
  intro root hr
  simp [extractFromDtsx, hr]

/-- C9, witness: key persistence applied concretely across the two
same-stem documents. -/
theorem c9_amended_keys_monotone_witness :
    (dictLookup "Pkg_S"
      (extractFromDtsx (extractFromDtsx emptyState c9docA).1 c9docB).1.assets).isSome = true :=
  (c9_amended_keys_monotone (extractFromDtsx emptyState c9docA).1 c9docB
    "Pkg_S").1 (by decide)

/-! ## Claim C10 (DELETE FROM identifiers are also sources)

The delete pattern `DELETE\s+FROM\s+(\w+(?:\.\w+)?)` embeds a complete
match of the from pattern `FROM\s+(\w+(?:\.\w+)?)`; the lemmas below
show the non-overlapping left-to-right scan for the from pattern always
reaches that embedded site and captures the same identifier. -/

theorem isSpc_not_wordish {c : Char} (h : isSpc c = true) :
    ¬ (isWordChar c = true ∨ c = '.') := by
  simp only [isSpc, Bool.or_eq_true, decide_eq_true_eq] at h
  rcases h with ((((h | h) | h) | h) | h) | h <;> subst h <;> decide

theorem dropPrefixL_eq : ∀ (kw s r : List Char),
    dropPrefixL kw s = some r → s = kw ++ r := by
  intro kw
  induction kw with
  | nil =>
    intro s r h
    simp only [dropPrefixL, Option.some_inj] at h
    simp [h]
  | cons a as ih =>
    intro s r h
    cases s with
    | nil => simp [dropPrefixL] at h
    | cons c t =>
      simp only [dropPrefixL] at h
      split at h
      next hca => subst hca; simp [ih t r h]
      next => simp at h

theorem dropSpaces1_eq (s r : List Char) (h : dropSpaces1 s = some r) :
    ∃ sp, s = sp ++ r ∧ sp ≠ [] ∧ ∀ c ∈ sp, isSpc c = true := by
  cases s with
  | nil => simp [dropSpaces1] at h
  | cons c t =>
    simp only [dropSpaces1] at h
    split at h
    next hc =>
      injection h with h
      refine ⟨c :: t.takeWhile isSpc, ?_, by simp, ?_⟩
      · rw [← h]
        simp [List.takeWhile_append_dropWhile]
      · intro x hx
        rcases List.mem_cons.mp hx with rfl | hx
        · exact hc
        · exact List.mem_takeWhile_imp hx
    next => simp at h

theorem matchIdent_eq (s cap rest : List Char)
    (h : matchIdent s = some (cap, rest)) :
    ∃ body, s = body ++ rest ∧ body ≠ [] ∧
      ∀ c ∈ body, isWordChar c = true ∨ c = '.' := by
  simp only [matchIdent] at h
  split at h
  next => simp at h
  next h1 =>
    split at h
    next r2 heq =>
      split at h
      next =>
        injection h with h
        injection h with hcap hrest
        subst hcap
        subst hrest
        refine ⟨s.takeWhile isWordChar, ?_, h1, ?_⟩
        · exact (List.takeWhile_append_dropWhile isWordChar s).symm
        · intro c hc
          exact Or.inl (List.mem_takeWhile_imp hc)
      next h2 =>
        injection h with h
        injection h with hcap hrest
        subst hcap
        subst hrest
        refine ⟨s.takeWhile isWordChar ++ '.' :: r2.takeWhile isWordChar,
          ?_, by simp, ?_⟩
        · have e2 := List.takeWhile_append_dropWhile isWordChar r2
          calc s = s.takeWhile isWordChar ++ s.dropWhile isWordChar :=
                (List.takeWhile_append_dropWhile isWordChar s).symm
            _ = s.takeWhile isWordChar ++ '.' :: r2 := by rw [heq]
            _ = s.takeWhile isWordChar ++
                  '.' :: (r2.takeWhile isWordChar ++ r2.dropWhile isWordChar) := by
                rw [e2]
            _ = (s.takeWhile isWordChar ++ '.' :: r2.takeWhile isWordChar) ++
                  r2.dropWhile isWordChar := by simp
        · intro c hc
          rcases List.mem_append.mp hc with hc | hc
          · exact Or.inl (List.mem_takeWhile_imp hc)
          · rcases List.mem_cons.mp hc with rfl | hc
            · exact Or.inr rfl
            · exact Or.inl (List.mem_takeWhile_imp hc)
    next hne =>
      injection h with h
      injection h with hcap hrest
      subst hcap
      subst hrest
      refine ⟨s.takeWhile isWordChar, ?_, h1, ?_⟩
      · exact (List.takeWhile_append_dropWhile isWordChar s).symm
      · intro c hc
        exact Or.inl (List.mem_takeWhile_imp hc)

theorem matchKws_suffix : ∀ (kws : List (List Char)) (s r : List Char),
    matchKws kws s = some r → r <:+ s := by
  intro kws
  induction kws with
  | nil =>
    intro s r h
    simp only [matchKws, Option.some_inj] at h
    exact h ▸ List.suffix_refl s
  | cons kw kws ih =>
    intro s r h
    simp only [matchKws] at h
    cases hd : dropPrefixL kw s with
    | none => rw [hd] at h; simp at h
    | some s1 =>
      rw [hd] at h
      simp only [Option.some_bind] at h
      cases hs : dropSpaces1 s1 with
      | none => rw [hs] at h; simp at h
      | some s2 =>
        rw [hs] at h
        simp only [Option.some_bind] at h
        obtain ⟨sp, hsp, -, -⟩ := dropSpaces1_eq s1 s2 hs
        have h1 : s = kw ++ s1 := dropPrefixL_eq kw s s1 hd
        exact List.IsSuffix.trans (ih s2 r h)
          (List.IsSuffix.trans ⟨sp, hsp.symm⟩ ⟨kw, h1.symm⟩)

theorem matchKws_length : ∀ (kws : List (List Char)) (s r : List Char),
    matchKws kws s = some r → r.length ≤ s.length := by
  intro kws s r h
  obtain ⟨pre, hpre⟩ := matchKws_suffix kws s r h
  subst hpre
  simp

theorem matchPat_rest_suffix (kws : List (List Char)) (s cap rest : List Char)
    (h : matchPat kws s = some (cap, rest)) : rest <:+ s := by
  simp only [matchPat] at h
  cases hk : matchKws kws s with
  | none => rw [hk] at h; simp at h
  | some s2 =>
    rw [hk] at h
    simp only [Option.some_bind] at h
    obtain ⟨body, hb, -, -⟩ := matchIdent_eq s2 cap rest h
    exact List.IsSuffix.trans ⟨body, hb.symm⟩ (matchKws_suffix kws s s2 hk)

theorem matchPat_rest_length (kws : List (List Char)) (s cap rest : List Char)
    (h : matchPat kws s = some (cap, rest)) : rest.length < s.length := by
  simp only [matchPat] at h
  cases hk : matchKws kws s with
  | none => rw [hk] at h; simp at h
  | some s2 =>
    rw [hk] at h
    simp only [Option.some_bind] at h
    obtain ⟨body, hb, hbne, -⟩ := matchIdent_eq s2 cap rest h
    have h2 : rest.length < s2.length := by
      subst hb
      cases body with
      | nil => exact absurd rfl hbne
      | cons x xs => simp; omega
    exact Nat.lt_of_lt_of_le h2 (matchKws_length kws s s2 hk)

theorem matchPat_single_eq (kw s cap rest : List Char)
    (h : matchPat [kw] s = some (cap, rest)) :
    ∃ sp body, s = kw ++ sp ++ body ++ rest ∧ sp ≠ [] ∧
      (∀ c ∈ sp, isSpc c = true) ∧ body ≠ [] ∧
      ∀ c ∈ body, isWordChar c = true ∨ c = '.' := by
  simp only [matchPat, matchKws] at h
  cases hd : dropPrefixL kw s with
  | none => rw [hd] at h; simp at h
  | some s1 =>
    rw [hd] at h
    simp only [Option.some_bind] at h
    cases hs : dropSpaces1 s1 with
    | none => rw [hs] at h; simp at h
    | some s2 =>
      rw [hs] at h
      simp only [Option.some_bind] at h
      obtain ⟨body, hb, hbne, hbw⟩ := matchIdent_eq s2 cap rest h
      obtain ⟨sp, hsp, hspne, hspc⟩ := dropSpaces1_eq s1 s2 hs
      refine ⟨sp, body, ?_, hspne, hspc, hbne, hbw⟩
      rw [dropPrefixL_eq kw s s1 hd, hsp, hb]
      simp

theorem matchPat_delete_eq (s cap rest : List Char)
    (h : matchPat deletePattern s = some (cap, rest)) :
    ∃ sp u, s = "DELETE".data ++ sp ++ u ∧ sp ≠ [] ∧
      (∀ c ∈ sp, isSpc c = true) ∧
      matchPat fromPattern u = some (cap, rest) := by
  simp only [matchPat, deletePattern, matchKws] at h
  cases hd : dropPrefixL "DELETE".data s with
  | none => rw [hd] at h; simp at h
  | some s1 =>
    rw [hd] at h
    simp only [Option.some_bind] at h
    cases hs : dropSpaces1 s1 with
    | none => rw [hs] at h; simp at h
    | some u =>
      rw [hs] at h
      simp only [Option.some_bind] at h
      obtain ⟨sp, hsp, hspne, hspc⟩ := dropSpaces1_eq s1 u hs
      refine ⟨sp, u, ?_, hspne, hspc, ?_⟩
      · rw [dropPrefixL_eq _ s s1 hd, hsp]
        simp
      · simp only [matchPat, fromPattern, matchKws]
        exact h

theorem scanF_congr (kws : List (List Char)) :
    ∀ (n m : Nat) (s : List Char), s.length ≤ n → s.length ≤ m →
      scanF kws n s = scanF kws m s := by
  intro n
  induction n with
  | zero =>
    intro m s hn _
    have : s = [] := List.eq_nil_of_length_eq_zero (Nat.le_zero.mp hn)
    subst this
    cases m <;> rfl
  | succ n ih =>
    intro m s hn hm
    cases s with
    | nil => cases m <;> rfl
    | cons c t =>
      cases m with
      | zero => simp at hm
      | succ m' =>
        simp only [scanF]
        cases hmt : matchPat kws (c :: t) with
        | some pr =>
          obtain ⟨cap0, rest0⟩ := pr
          have hlt := matchPat_rest_length kws (c :: t) cap0 rest0 hmt
          simp only [List.length_cons] at hn hm hlt
          show cap0 :: scanF kws n rest0 = cap0 :: scanF kws m' rest0
          rw [ih m' rest0 (by omega) (by omega)]
        | none =>
          simp only [List.length_cons] at hn hm
          show scanF kws n t = scanF kws m' t
          rw [ih m' t (by omega) (by omega)]

theorem scanF_mem_site (kws : List (List Char)) :
    ∀ (n : Nat) (s cap : List Char), s.length ≤ n → cap ∈ scanF kws n s →
      ∃ u rest, u <:+ s ∧ matchPat kws u = some (cap, rest) := by
  intro n
  induction n with
  | zero => intro s cap _ hm; simp [scanF] at hm
  | succ n ih =>
    intro s cap hl hm
    cases s with
    | nil => simp [scanF] at hm
    | cons c t =>
      simp only [scanF] at hm
      cases hmt : matchPat kws (c :: t) with
      | some pr =>
        obtain ⟨cap0, rest0⟩ := pr
        rw [hmt] at hm
        rcases List.mem_cons.mp hm with rfl | hm'
        · exact ⟨c :: t, rest0, List.suffix_refl _, hmt⟩
        · have hlt := matchPat_rest_length kws (c :: t) cap0 rest0 hmt
          simp only [List.length_cons] at hl hlt
          obtain ⟨u, rest, hu, hmu⟩ := ih rest0 cap (by omega) hm'
          exact ⟨u, rest, hu.trans (matchPat_rest_suffix kws _ _ _ hmt), hmu⟩
      | none =>
        rw [hmt] at hm
        simp only [List.length_cons] at hl
        obtain ⟨u, rest, hu, hmu⟩ := ih t cap (by omega) hm
        exact ⟨u, rest, hu.trans (List.suffix_cons c t), hmu⟩

theorem from_capture_found :
    ∀ (n : Nat) (s a w cap rest : List Char),
      s.length ≤ n → s = a ++ w →
      matchPat fromPattern w = some (cap, rest) →
      CondE a →
      cap ∈ findall fromPattern s := by
  intro n
  induction n with
  | zero =>
    intro s a w cap rest hn hsw hw _
    have hs0 : s = [] := List.eq_nil_of_length_eq_zero (Nat.le_zero.mp hn)
    subst hs0
    have hw0 : w = [] := (List.append_eq_nil.mp hsw.symm).2
    rw [hw0] at hw
    have hnone : matchPat fromPattern ([] : List Char) = none := by decide
    rw [hnone] at hw
    exact Option.noConfusion hw
  | succ n ih =>
    intro s a w cap rest hn hsw hw hcond
    have hFROM : "FROM".data = 'F' :: "ROM".data := by decide
    obtain ⟨spw, bodyw, hwdec, hspwne, hspw, hbodywne, hbodyw⟩ :=
      matchPat_single_eq "FROM".data w cap rest hw
    have hwF : ∃ wt, w = 'F' :: wt := by
      refine ⟨"ROM".data ++ (spw ++ (bodyw ++ rest)), ?_⟩
      rw [hwdec, hFROM]
      simp
    by_cases ha0 : a = []
    · subst ha0
      rw [List.nil_append] at hsw
      subst hsw
      obtain ⟨wt, hwt⟩ := hwF
      rw [hwt] at hw ⊢
      simp only [findall, List.length_cons, scanF]
      rw [hw]
      exact List.mem_cons_self _ _
    · obtain ⟨ha, ta, hata⟩ : ∃ ha ta, a = ha :: ta := by
        cases a with
        | nil => exact absurd rfl ha0
        | cons x xs => exact ⟨x, xs, rfl⟩
      cases hms : matchPat fromPattern s with
      | none =>
        subst hata
        rw [List.cons_append] at hsw
        subst hsw
        simp only [findall, List.length_cons, scanF]
        rw [hms]
        show cap ∈ findall fromPattern (ta ++ w)
        have hc' : CondE ta := by
          rcases hcond with hall | ⟨b, sp, hab, hspne, hsp⟩
          · exact Or.inl fun c hc => hall c (List.mem_cons_of_mem _ hc)
          · cases b with
            | nil =>
              rw [List.nil_append] at hab
              injection hab with h1 h2
              exact Or.inl (h2 ▸ hsp)
            | cons bb bt =>
              rw [List.cons_append] at hab
              injection hab with h1 h2
              exact Or.inr ⟨bt, sp, h2, hspne, hsp⟩
        simp only [List.length_cons] at hn
        exact ih (ta ++ w) ta w cap rest (by omega) rfl hw hc'
      | some pr =>
        obtain ⟨capF, restF⟩ := pr
        obtain ⟨sp1, body1, hsdec, hsp1ne, hsp1, hbody1ne, hbody1⟩ :=
          matchPat_single_eq "FROM".data s capF restF hms
        have hlt := matchPat_rest_length fromPattern s capF restF hms
        have hpush : cap ∈ findall fromPattern restF →
            cap ∈ findall fromPattern s := by
          intro hfin
          obtain ⟨st, hst⟩ : ∃ st, s = 'F' :: st :=
            ⟨"ROM".data ++ (sp1 ++ (body1 ++ restF)), by rw [hsdec, hFROM]; simp⟩
          rw [hst] at hms hlt ⊢
          simp only [findall, List.length_cons, scanF]
          rw [hms]
          refine List.mem_cons_of_mem _ ?_
          simp only [List.length_cons] at hlt
          rw [scanF_congr fromPattern st.length restF.length restF (by omega)
            (Nat.le_refl _)]
          exact hfin
        rcases hcond with hall | ⟨b, sp, hab, hspne, hsp⟩
        · exfalso
          subst hata
          rw [List.cons_append] at hsw
          have hsF : s = 'F' :: ("ROM".data ++ (sp1 ++ (body1 ++ restF))) := by
            rw [hsdec, hFROM]
            simp
          rw [hsF] at hsw
          injection hsw with h1 _
          have hsp' := hall ha (List.mem_cons_self _ _)
          rw [← h1] at hsp'
          exact absurd hsp' (by decide)
        · have E0 : a ++ w = "FROM".data ++ (sp1 ++ (body1 ++ restF)) := by
            calc a ++ w = s := hsw.symm
              _ = "FROM".data ++ sp1 ++ body1 ++ restF := hsdec
              _ = "FROM".data ++ (sp1 ++ (body1 ++ restF)) := by
                simp [List.append_assoc]
          have hEa : 'E' ∈ a := by
            rw [hab]
            exact List.mem_append_right _ (List.mem_cons_self _ _)
          rcases List.append_eq_append_iff.mp E0 with ⟨a', hFa, hwa⟩ | ⟨c', hac, hrc⟩
          · exfalso
            have hEF : 'E' ∈ "FROM".data := by
              rw [hFa]
              exact List.mem_append_left _ hEa
            exact absurd hEF (by decide)
          · rcases List.append_eq_append_iff.mp hrc with
              ⟨d, hcd, hbr⟩ | ⟨c'', hsp1c, hwc⟩
            · rcases List.append_eq_append_iff.mp hbr with
                ⟨e, hde, hre⟩ | ⟨e, hbe, hwe⟩
              · -- the scan's first match ends at or before the site of w
                have haeq : a = ("FROM".data ++ sp1 ++ body1) ++ e := by
                  rw [hac, hcd, hde]
                  simp [List.append_assoc]
                have hcondE : CondE e := by
                  have hs1 : ('E' :: sp) <:+ a := ⟨b, hab.symm⟩
                  have hs2 : e <:+ a := ⟨"FROM".data ++ sp1 ++ body1, haeq.symm⟩
                  rcases List.suffix_or_suffix_of_suffix hs1 hs2 with hss | hss
                  · obtain ⟨y, hy⟩ := hss
                    exact Or.inr ⟨y, sp, hy.symm, hspne, hsp⟩
                  · rcases List.suffix_cons_iff.mp hss with he | he
                    · refine Or.inr ⟨[], sp, ?_, hspne, hsp⟩
                      rw [List.nil_append]
                      exact he
                    · exact Or.inl fun c hc => hsp c (he.mem hc)
                exact hpush (ih restF e w cap rest (by omega) hre hw hcondE)
              · -- the capture would have to swallow the whitespace before w
                exfalso
                have had : a = ("FROM".data ++ sp1) ++ d := by
                  rw [hac, hcd]
                  simp [List.append_assoc]
                have hs1 : ('E' :: sp) <:+ a := ⟨b, hab.symm⟩
                have hs2 : d <:+ a := ⟨"FROM".data ++ sp1, had.symm⟩
                have hdw : ∀ c ∈ d, isWordChar c = true ∨ c = '.' := by
                  intro c hc
                  refine hbody1 c ?_
                  rw [hbe]
                  exact List.mem_append_left _ hc
                obtain ⟨c0, hc0⟩ : ∃ c0, c0 ∈ sp := by
                  cases sp with
                  | nil => exact absurd rfl hspne
                  | cons x xs => exact ⟨x, List.mem_cons_self _ _⟩
                rcases List.suffix_or_suffix_of_suffix hs1 hs2 with hss | hss
                · have hcd0 : c0 ∈ d := hss.mem (List.mem_cons_of_mem _ hc0)
                  exact absurd (hdw c0 hcd0) (isSpc_not_wordish (hsp c0 hc0))
                · rcases List.suffix_cons_iff.mp hss with he | he
                  · have hcd0 : c0 ∈ d := by
                      rw [he]
                      exact List.mem_cons_of_mem _ hc0
                    exact absurd (hdw c0 hcd0) (isSpc_not_wordish (hsp c0 hc0))
                  · by_cases hd0 : d = []
                    · subst hd0
                      rw [List.append_nil] at had
                      rcases List.mem_append.mp (had ▸ hEa) with hE | hE
                      · exact absurd hE (by decide)
                      · exact absurd (hsp1 'E' hE) (by decide)
                    · obtain ⟨d0, hd0m⟩ : ∃ d0, d0 ∈ d := by
                        cases d with
                        | nil => exact absurd rfl hd0
                        | cons x xs => exact ⟨x, List.mem_cons_self _ _⟩
                      exact absurd (hdw d0 hd0m)
                        (isSpc_not_wordish (hsp d0 (he.mem hd0m)))
            · -- w would have to begin with a whitespace character
              exfalso
              by_cases hc''0 : c'' = []
              · subst hc''0
                rw [List.append_nil] at hsp1c
                have haF : a = "FROM".data ++ sp1 := by
                  rw [hac, hsp1c]
                rcases List.mem_append.mp (haF ▸ hEa) with hE | hE
                · exact absurd hE (by decide)
                · exact absurd (hsp1 'E' hE) (by decide)
              · obtain ⟨ch, ct, hcc⟩ : ∃ ch ct, c'' = ch :: ct := by
                  cases c'' with
                  | nil => exact absurd rfl hc''0
                  | cons x xs => exact ⟨x, xs, rfl⟩
                obtain ⟨wt, hwt⟩ := hwF
                rw [hwt, hcc, List.cons_append] at hwc
                injection hwc with h1 _
                have hchs : isSpc ch = true := by
                  refine hsp1 ch ?_
                  rw [hsp1c, hcc]
                  exact List.mem_append_right _ (List.mem_cons_self _ _)
                rw [← h1] at hchs
                exact absurd hchs (by decide)

theorem delete_capture_in_from (s u cap rest : List Char)
    (hsuf : u <:+ s) (h : matchPat deletePattern u = some (cap, rest)) :
    cap ∈ findall fromPattern s := by
  obtain ⟨a0, ha0⟩ := hsuf
  obtain ⟨sp, w, hudec, hspne, hsp, hmw⟩ := matchPat_delete_eq u cap rest h
  have hDELETE : "DELETE".data = "DELET".data ++ ['E'] := by decide
  have hs : s = (a0 ++ ("DELETE".data ++ sp)) ++ w := by
    rw [← ha0, hudec]
    simp [List.append_assoc]
  refine from_capture_found s.length s (a0 ++ ("DELETE".data ++ sp)) w cap rest
    (Nat.le_refl _) hs hmw ?_
  refine Or.inr ⟨a0 ++ "DELET".data, sp, ?_, hspne, hsp⟩
  rw [hDELETE]
  simp [List.append_assoc]

theorem mem_setUpdate (xs l : List String) (x : String) :
    x ∈ setUpdate l xs ↔ x ∈ l ∨ x ∈ xs :=
  mem_foldl_pushUnique xs l x

/-- C10: every identifier the resolver extracts into the target-table
set through the `DELETE FROM` pattern is also in the returned
source-table set: the `FROM` pattern matches the same occurrence, and
the non-overlapping scan never skips it, because everything between the
`…E` of `DELETE` and the `FROM` keyword is whitespace. -/
theorem c10_delete_from_in_sources (sql x : String)
    (hx : x ∈ findallS deletePattern (String.mk (sql.data.map Char.toUpper))) :
    x ∈ (parseSqlTables sql).1 := by
  simp only [findallS, List.mem_map] at hx
  obtain ⟨cap, hcap, rfl⟩ := hx
  obtain ⟨u, rest, hsuf, hmu⟩ :=
    scanF_mem_site deletePattern
      (String.mk (sql.data.map Char.toUpper)).data.length
      (String.mk (sql.data.map Char.toUpper)).data cap (Nat.le_refl _) hcap
  have hfrom : cap ∈ findall fromPattern
      (String.mk (sql.data.map Char.toUpper)).data :=
    delete_capture_in_from _ u cap rest hsuf hmu
  simp only [parseSqlTables]
  refine (mem_setUpdate _ _ _).mpr (Or.inl ?_)
  refine (mem_setUpdate _ _ _).mpr (Or.inr ?_)
  simp only [findallS, List.mem_map]
  exact ⟨cap, hfrom, rfl⟩

/-- C10, witness: for `"DELETE FROM Logs"`, the identifier `LOGS` is
captured by the delete pattern and is indeed reported as a source. -/
theorem c10_delete_from_in_sources_witness :
    "LOGS" ∈ findallS deletePattern
        (String.mk ("DELETE FROM Logs".data.map Char.toUpper)) ∧
      "LOGS" ∈ (parseSqlTables "DELETE FROM Logs").1 :=
  ⟨by decide, c10_delete_from_in_sources "DELETE FROM Logs" "LOGS" (by decide)⟩
